import Mathlib

/-!
Verification of `tera-text-filters-rs` (`src/lib.rs`).

The crate exposes seven Tera filters (`camel_case`, `kebab_case`, `lower_case`,
`mixed_case`, `snake_case`, `title_case`, `upper_case`).  Each filter extracts a
`String` from a dynamically typed `Value` via `try_get_value!` and applies a
case conversion from the `heck` crate (`to_camel_case`, …) or from the standard
library (`to_lowercase`, `to_uppercase`).

Strings are modelled as lists of characters (`Str`), so conversions are plain
structural recursions. The dynamically typed value container is modelled as a
tagged variant following the crate's `tera::Value` (a JSON value); numbers are
modelled as integers, which suffices for the non-string error path.
-/

namespace TeraTextFilters

/-- A string, modelled as its list of characters. -/
abbrev Str := List Char

/-- The dynamically typed value container, the tagged variant
`String | Number | Bool | ...` of the spec's design notes (`tera::Value`).
Numeric values are modelled as integers. -/
inductive Value where
  | null : Value
  | bool (b : Bool) : Value
  | num (n : Int) : Value
  | str (s : Str) : Value
deriving DecidableEq, Repr

/-- The error produced by `try_get_value!` when the input value does not have
the expected type: it records the filter name, the argument name, the expected
type and the offending value. -/
structure TypeMismatch where
  filter : Str
  arg : Str
  expected : Str
  got : Value
deriving DecidableEq, Repr

/-- Embedding of the `try_get_value!("name", "value", String, value)` macro:
returns the contained string, or a `TypeMismatch` error for every non-string
value. -/
def tryGetValueString (filterName : Str) (v : Value) : Except TypeMismatch Str :=
  match v with
  | .str s => .ok s
  | _ => .error ⟨filterName, "value".data, "String".data, v⟩

/-! ### Character classification and case mapping

`Char.toLower` / `Char.toUpper` from the Lean core library play the role of the
per-character case mapping of the underlying text primitives (basic latin
letters; the spec's non-goals exclude internationalization beyond the
classification the primitives provide). -/

/-- Uppercase basic latin letter (`A`–`Z`). -/
def isUp (c : Char) : Bool := decide (65 ≤ c.toNat ∧ c.toNat ≤ 90)

/-- Lowercase basic latin letter (`a`–`z`). -/
def isLo (c : Char) : Bool := decide (97 ≤ c.toNat ∧ c.toNat ≤ 122)

/-- Decimal digit (`0`–`9`). -/
def isDig (c : Char) : Bool := decide (48 ≤ c.toNat ∧ c.toNat ≤ 57)

/-- Letter (either case). -/
def isLetter (c : Char) : Bool := isUp c || isLo c

/-- Alphanumeric character; everything else is a separator for the word
splitter. -/
def isWordChar (c : Char) : Bool := isUp c || isLo c || isDig c

/-! ### Word splitter

Modelled from the spec: the `heck` crate's word-boundary splitting is not part
of this repository's sources, so it is reconstructed from the specification's
algorithm (section 4.1): scan left to right; a new word fragment starts at the
start of the input, at an alphanumeric character following a separator, or at
an uppercase letter immediately following a lowercase letter or a digit;
fragment characters are stored lower-cased; separators and empty fragments are
dropped; a run of consecutive uppercase letters stays in one fragment. -/

/-- Append a finished fragment to the accumulated word list, dropping it when
empty. -/
def pushWord (w : Str) (acc : List Str) : List Str :=
  if w.isEmpty then acc else acc ++ [w]

/-- Whether the previously scanned character is a lowercase letter or a digit,
so that a following uppercase letter opens a new fragment (camel boundary). -/
def prevLowerAlnum (prev : Option Char) : Bool :=
  match prev with
  | some p => isLo p || isDig p
  | none => false

/-- Modelled from the spec: the single left-to-right scan of the word splitter.
`prev` is the previously scanned character, `cur` the fragment being built
(already lower-cased), `acc` the finished fragments. -/
def splitAux (prev : Option Char) (cur : Str) (acc : List Str) : Str → List Str
  | [] => pushWord cur acc
  | c :: rest =>
    if isWordChar c then
      if isUp c && prevLowerAlnum prev then
        splitAux (some c) [c.toLower] (pushWord cur acc) rest
      else
        splitAux (some c) (cur ++ [c.toLower]) acc rest
    else
      splitAux (some c) [] (pushWord cur acc) rest

/-- Modelled from the spec: `split(input) -> sequence of word fragments`. -/
def splitWords (s : Str) : List Str := splitAux none [] [] s

/-! ### Style renderers (spec section 4.2) -/

/-- Uppercase the first character of a fragment. -/
def capitalize : Str → Str
  | [] => []
  | c :: cs => c.toUpper :: cs

/-- Join fragments with a separator string. -/
def joinWith (sep : Str) : List Str → Str
  | [] => []
  | [w] => w
  | w :: w' :: ws => w ++ sep ++ joinWith sep (w' :: ws)

/-- Modelled from the spec: `heck`'s `to_camel_case` — capitalize the first
letter of every word and concatenate. -/
def to_camel_case (s : Str) : Str := joinWith [] ((splitWords s).map capitalize)

/-- Modelled from the spec: `heck`'s `to_kebab_case` — lowercase words joined
with `-`. -/
def to_kebab_case (s : Str) : Str := joinWith ['-'] (splitWords s)

/-- Modelled from the spec: `heck`'s `to_mixed_case` — capitalize the first
letter of every word except the first and concatenate. -/
def to_mixed_case (s : Str) : Str :=
  match splitWords s with
  | [] => []
  | w :: ws => w ++ joinWith [] (ws.map capitalize)

/-- Modelled from the spec: `heck`'s `to_snake_case` — lowercase words joined
with `_`. -/
def to_snake_case (s : Str) : Str := joinWith ['_'] (splitWords s)

/-- Modelled from the spec: `heck`'s `to_title_case` — capitalize the first
letter of every word, join with a single space. -/
def to_title_case (s : Str) : Str := joinWith [' '] ((splitWords s).map capitalize)

/-- Modelled from the spec: `str::to_lowercase` — lowercase the entire string
character by character (basic latin fragment of the primitive). -/
def to_lowercase (s : Str) : Str := s.map Char.toLower

/-- Modelled from the spec: `str::to_uppercase` — uppercase the entire string
character by character (basic latin fragment of the primitive). -/
def to_uppercase (s : Str) : Str := s.map Char.toUpper

/-! ### The seven filters (src/lib.rs)

Each filter takes the value and the (unused) map of named arguments and either
fails with `TypeMismatch` or wraps the converted string back into a `Value`. -/

/-- The auxiliary map of named arguments passed to every filter. -/
abbrev Args := List (Str × Value)

/-- `pub fn camel_case` (src/lib.rs lines 36–39). -/
def camel_case (value : Value) (_ : Args) : Except TypeMismatch Value :=
  (tryGetValueString "camel_case".data value).map fun s => .str (to_camel_case s)

/-- `pub fn kebab_case` (src/lib.rs lines 59–62). -/
def kebab_case (value : Value) (_ : Args) : Except TypeMismatch Value :=
  (tryGetValueString "kebab_case".data value).map fun s => .str (to_kebab_case s)

/-- `pub fn lower_case` (src/lib.rs lines 82–85). -/
def lower_case (value : Value) (_ : Args) : Except TypeMismatch Value :=
  (tryGetValueString "lower_case".data value).map fun s => .str (to_lowercase s)

/-- `pub fn mixed_case` (src/lib.rs lines 105–108). -/
def mixed_case (value : Value) (_ : Args) : Except TypeMismatch Value :=
  (tryGetValueString "mixed_case".data value).map fun s => .str (to_mixed_case s)

/-- `pub fn snake_case` (src/lib.rs lines 128–131). -/
def snake_case (value : Value) (_ : Args) : Except TypeMismatch Value :=
  (tryGetValueString "snake_case".data value).map fun s => .str (to_snake_case s)

/-- `pub fn title_case` (src/lib.rs lines 151–154). -/
def title_case (value : Value) (_ : Args) : Except TypeMismatch Value :=
  (tryGetValueString "title_case".data value).map fun s => .str (to_title_case s)

/-- `pub fn upper_case` (src/lib.rs lines 174–177). -/
def upper_case (value : Value) (_ : Args) : Except TypeMismatch Value :=
  (tryGetValueString "upper_case".data value).map fun s => .str (to_uppercase s)

/-! ### Sanity checks against the spec's concrete scenarios -/

example : to_camel_case "some text".data = "SomeText".data := by decide
example : to_kebab_case "some text".data = "some-text".data := by decide
example : to_lowercase "soMe Text".data = "some text".data := by decide
example : to_mixed_case "Some text".data = "someText".data := by decide
example : to_snake_case "soMe Text".data = "so_me_text".data := by decide
example : to_title_case "soMe Text".data = "So Me Text".data := by decide
example : to_uppercase "soMe Text".data = "SOME TEXT".data := by decide

/-! ### Observations on results and values -/

/-- Whether a filter result is an error. -/
def isError {ε α : Type} (r : Except ε α) : Bool :=
  match r with
  | .error _ => true
  | .ok _ => false

/-- Whether a value is string-typed. -/
def isStr (v : Value) : Bool :=
  match v with
  | .str _ => true
  | _ => false

/-- Whether a filter result is a success carrying a string-typed value. -/
def isOkStr (r : Except TypeMismatch Value) : Bool :=
  match r with
  | .ok (.str _) => true
  | _ => false

instance {ε α : Type} [DecidableEq ε] [DecidableEq α] : DecidableEq (Except ε α)
  | .error a, .error b =>
    if h : a = b then .isTrue (congrArg Except.error h)
    else .isFalse fun he => h (Except.error.inj he)
  | .error _, .ok _ => .isFalse Except.noConfusion
  | .ok _, .error _ => .isFalse Except.noConfusion
  | .ok a, .ok b =>
    if h : a = b then .isTrue (congrArg Except.ok h)
    else .isFalse fun he => h (Except.ok.inj he)

/-! ### Character-level lemmas -/

theorem toNat_ofNat_valid (n : Nat) (h : n.isValidChar) : (Char.ofNat n).toNat = n := by
  rw [Char.ofNat, dif_pos h]
  rfl

theorem toNat_toLower_of_isUp {c : Char} (h : isUp c = true) :
    c.toLower.toNat = c.toNat + 32 := by
  rw [isUp, decide_eq_true_eq] at h
  rw [Char.toLower, if_pos ⟨h.1, h.2⟩]
  exact toNat_ofNat_valid _ (Or.inl (by omega))

theorem toLower_of_not_isUp {c : Char} (h : isUp c = false) : c.toLower = c := by
  rw [isUp, decide_eq_false_iff_not] at h
  rw [Char.toLower, if_neg h]

theorem toNat_toUpper_of_isLo {c : Char} (h : isLo c = true) :
    c.toUpper.toNat = c.toNat - 32 := by
  rw [isLo, decide_eq_true_eq] at h
  rw [Char.toUpper, if_pos ⟨h.1, h.2⟩]
  exact toNat_ofNat_valid _ (Or.inl (by omega))

theorem toUpper_of_not_isLo {c : Char} (h : isLo c = false) : c.toUpper = c := by
  rw [isLo, decide_eq_false_iff_not] at h
  rw [Char.toUpper, if_neg h]

/-- The per-character lowercase map is idempotent. -/
theorem toLower_toLower (c : Char) : c.toLower.toLower = c.toLower := by
  cases hu : isUp c with
  | false => rw [toLower_of_not_isUp hu, toLower_of_not_isUp hu]
  | true =>
    have hn := toNat_toLower_of_isUp hu
    rw [isUp, decide_eq_true_eq] at hu
    apply toLower_of_not_isUp
    rw [isUp, decide_eq_false_iff_not]
    omega

/-- The per-character uppercase map is idempotent. -/
theorem toUpper_toUpper (c : Char) : c.toUpper.toUpper = c.toUpper := by
  cases hl : isLo c with
  | false => rw [toUpper_of_not_isLo hl, toUpper_of_not_isLo hl]
  | true =>
    have hn := toNat_toUpper_of_isLo hl
    rw [isLo, decide_eq_true_eq] at hl
    apply toUpper_of_not_isLo
    rw [isLo, decide_eq_false_iff_not]
    omega

/-- Non-letters are fixed points of the lowercase map. -/
theorem toLower_of_not_isLetter {c : Char} (h : isLetter c = false) : c.toLower = c := by
  rw [isLetter, Bool.or_eq_false_iff] at h
  exact toLower_of_not_isUp h.1

/-- Non-letters are fixed points of the uppercase map. -/
theorem toUpper_of_not_isLetter {c : Char} (h : isLetter c = false) : c.toUpper = c := by
  rw [isLetter, Bool.or_eq_false_iff] at h
  exact toUpper_of_not_isLo h.2

/-- A character stored in a word fragment: lowercase letter or digit. -/
def isLowerAlnum (c : Char) : Bool := isLo c || isDig c

theorem isLowerAlnum_toLower_of_isWordChar {c : Char} (h : isWordChar c = true) :
    isLowerAlnum c.toLower = true := by
  rw [isWordChar, Bool.or_eq_true, Bool.or_eq_true] at h
  rcases h with h | h
  · rcases h with h | h
    · have hn := toNat_toLower_of_isUp h
      rw [isUp, decide_eq_true_eq] at h
      rw [isLowerAlnum, Bool.or_eq_true, isLo, decide_eq_true_eq]
      exact Or.inl (by omega)
    · have hl : isUp c = false := by
        rw [isLo, decide_eq_true_eq] at h
        rw [isUp, decide_eq_false_iff_not]
        omega
      rw [toLower_of_not_isUp hl, isLowerAlnum, Bool.or_eq_true]
      exact Or.inl h
  · have hl : isUp c = false := by
      rw [isDig, decide_eq_true_eq] at h
      rw [isUp, decide_eq_false_iff_not]
      omega
    rw [toLower_of_not_isUp hl, isLowerAlnum, Bool.or_eq_true]
    exact Or.inr h

theorem toLower_of_isLowerAlnum {c : Char} (h : isLowerAlnum c = true) : c.toLower = c := by
  rw [isLowerAlnum, Bool.or_eq_true, isLo, isDig, decide_eq_true_eq, decide_eq_true_eq] at h
  apply toLower_of_not_isUp
  rw [isUp, decide_eq_false_iff_not]
  omega

theorem isUp_eq_false_of_isLowerAlnum {c : Char} (h : isLowerAlnum c = true) :
    isUp c = false := by
  rw [isLowerAlnum, Bool.or_eq_true, isLo, isDig, decide_eq_true_eq, decide_eq_true_eq] at h
  rw [isUp, decide_eq_false_iff_not]
  omega

theorem isWordChar_of_isLowerAlnum {c : Char} (h : isLowerAlnum c = true) :
    isWordChar c = true := by
  rw [isLowerAlnum, Bool.or_eq_true] at h
  rw [isWordChar, Bool.or_eq_true, Bool.or_eq_true]
  rcases h with h | h
  · exact Or.inl (Or.inr h)
  · exact Or.inr h

theorem isUp_of_not_isWordChar {c : Char} (h : isWordChar c = false) : isUp c = false := by
  rw [isWordChar, Bool.or_eq_false_iff, Bool.or_eq_false_iff] at h
  exact h.1.1

theorem isLetter_of_not_isWordChar {c : Char} (h : isWordChar c = false) :
    isLetter c = false := by
  rw [isWordChar, Bool.or_eq_false_iff, Bool.or_eq_false_iff] at h
  rw [isLetter, Bool.or_eq_false_iff]
  exact ⟨h.1.1, h.1.2⟩

/-! ### Invariants of the word splitter -/

/-- Fragments accumulated by `pushWord` stay nonempty and lowercase-alphanumeric. -/
theorem pushWord_inv {w : Str} {acc : List Str}
    (hacc : ∀ u ∈ acc, u ≠ [] ∧ ∀ c ∈ u, isLowerAlnum c = true)
    (hw : ∀ c ∈ w, isLowerAlnum c = true) :
    ∀ u ∈ pushWord w acc, u ≠ [] ∧ ∀ c ∈ u, isLowerAlnum c = true := by
  intro u hu
  rw [pushWord] at hu
  by_cases hw0 : w.isEmpty
  · rw [if_pos hw0] at hu
    exact hacc u hu
  · rw [if_neg hw0] at hu
    rcases List.mem_append.mp hu with h | h
    · exact hacc u h
    · rcases List.mem_singleton.mp h with rfl
      exact ⟨fun he => hw0 (by rw [he]; rfl), hw⟩

/-- Every fragment produced by the splitter scan is nonempty and consists of
lowercase letters and digits. -/
theorem splitAux_inv (s : Str) : ∀ (p : Option Char) (cur : Str) (acc : List Str),
    (∀ u ∈ acc, u ≠ [] ∧ ∀ c ∈ u, isLowerAlnum c = true) →
    (∀ c ∈ cur, isLowerAlnum c = true) →
    ∀ u ∈ splitAux p cur acc s, u ≠ [] ∧ ∀ c ∈ u, isLowerAlnum c = true := by
  induction s with
  | nil =>
    intro p cur acc hacc hcur u hu
    exact pushWord_inv hacc hcur u hu
  | cons c rest ih =>
    intro p cur acc hacc hcur u hu
    rw [splitAux] at hu
    by_cases hw : isWordChar c = true
    · rw [if_pos hw] at hu
      have hlow : isLowerAlnum c.toLower = true := isLowerAlnum_toLower_of_isWordChar hw
      by_cases hb : (isUp c && prevLowerAlnum p) = true
      · rw [if_pos hb] at hu
        exact ih (some c) [c.toLower] (pushWord cur acc) (pushWord_inv hacc hcur)
          (by intro d hd; rcases List.mem_singleton.mp hd with rfl; exact hlow) u hu
      · rw [if_neg hb] at hu
        refine ih (some c) (cur ++ [c.toLower]) acc hacc ?_ u hu
        intro d hd
        rcases List.mem_append.mp hd with h | h
        · exact hcur d h
        · rcases List.mem_singleton.mp h with rfl
          exact hlow
    · rw [if_neg hw] at hu
      exact ih (some c) [] (pushWord cur acc) (pushWord_inv hacc hcur)
        (by intro d hd; cases hd) u hu

/-- Every word fragment of `splitWords` is nonempty and consists of lowercase
letters and digits. -/
theorem splitWords_inv (s : Str) :
    ∀ u ∈ splitWords s, u ≠ [] ∧ ∀ c ∈ u, isLowerAlnum c = true :=
  splitAux_inv s none [] [] (by intro u hu; cases hu) (by intro c hc; cases hc)

/-- Characters of a joined word list are the separator or fragment characters. -/
theorem mem_joinWith {sep : Char} {ws : List Str} {c : Char}
    (h : c ∈ joinWith [sep] ws) : c = sep ∨ ∃ w ∈ ws, c ∈ w := by
  induction ws with
  | nil => cases h
  | cons w ws ih =>
    cases ws with
    | nil =>
      rw [joinWith] at h
      exact Or.inr ⟨w, List.mem_singleton.mpr rfl, h⟩
    | cons w' ws' =>
      rw [joinWith] at h
      rcases List.mem_append.mp h with h | h
      · rcases List.mem_append.mp h with h | h
        · exact Or.inr ⟨w, List.mem_cons_self _ _, h⟩
        · exact Or.inl (List.mem_singleton.mp h)
      · rcases ih h with h | ⟨u, hu, hcu⟩
        · exact Or.inl h
        · exact Or.inr ⟨u, List.mem_cons_of_mem _ hu, hcu⟩

theorem pushWord_nil (acc : List Str) : pushWord [] acc = acc := rfl

theorem pushWord_of_ne {w : Str} (h : w ≠ []) (acc : List Str) :
    pushWord w acc = acc ++ [w] := by
  cases w with
  | nil => exact absurd rfl h
  | cons c cs => rfl

/-- Scanning a lowercase-alphanumeric run extends the current fragment with it,
whatever the previous character was. -/
theorem splitAux_append_lowerAlnum (w : Str) :
    ∀ (p : Option Char) (cur : Str) (acc : List Str) (rest : Str),
    (∀ c ∈ w, isLowerAlnum c = true) →
    ∃ p', splitAux p cur acc (w ++ rest) = splitAux p' (cur ++ w) acc rest := by
  induction w with
  | nil =>
    intro p cur acc rest _
    exact ⟨p, by simp⟩
  | cons c w ih =>
    intro p cur acc rest hw
    have hc : isLowerAlnum c = true := hw c (List.mem_cons_self _ _)
    have hwc : isWordChar c = true := isWordChar_of_isLowerAlnum hc
    have hup : isUp c = false := isUp_eq_false_of_isLowerAlnum hc
    have hstep : splitAux p cur acc ((c :: w) ++ rest) =
        splitAux (some c) (cur ++ [c]) acc (w ++ rest) := by
      rw [List.cons_append, splitAux, if_pos hwc, if_neg (by rw [hup]; simp),
        toLower_of_isLowerAlnum hc]
    obtain ⟨p', hp'⟩ := ih (some c) (cur ++ [c]) acc rest
      (fun d hd => hw d (List.mem_cons_of_mem _ hd))
    refine ⟨p', ?_⟩
    rw [hstep, hp', List.append_assoc]
    rfl

/-- Scanning the separator-joined fragment list recovers exactly the fragments,
appended to the accumulator. -/
theorem splitAux_joinWith {sep : Char} (hsep : isWordChar sep = false) :
    ∀ (ws : List Str) (acc : List Str) (p : Option Char),
    (∀ u ∈ ws, u ≠ [] ∧ ∀ c ∈ u, isLowerAlnum c = true) →
    splitAux p [] acc (joinWith [sep] ws) = acc ++ ws := by
  intro ws
  induction ws with
  | nil =>
    intro acc p _
    rw [joinWith, splitAux, pushWord_nil, List.append_nil]
  | cons w ws ih =>
    intro acc p hws
    have hw := hws w (List.mem_cons_self _ _)
    cases ws with
    | nil =>
      rw [joinWith]
      obtain ⟨p', hp'⟩ := splitAux_append_lowerAlnum w p [] acc [] hw.2
      rw [List.append_nil] at hp'
      rw [hp', List.nil_append, splitAux, pushWord_of_ne hw.1]
    | cons w' ws' =>
      rw [joinWith]
      obtain ⟨p', hp'⟩ := splitAux_append_lowerAlnum w p [] acc
        (sep :: joinWith [sep] (w' :: ws')) hw.2
      rw [List.append_assoc, List.singleton_append, hp', List.nil_append, splitAux,
        if_neg (by rw [hsep]; simp),
        ih (pushWord w acc) (some sep) (fun u hu => hws u (List.mem_cons_of_mem _ hu)),
        pushWord_of_ne hw.1, List.append_assoc, List.singleton_append]

/-- Splitting a separator-joined list of nonempty lowercase-alphanumeric
fragments gives back exactly those fragments. -/
theorem splitWords_joinWith {sep : Char} (hsep : isWordChar sep = false)
    (ws : List Str) (hws : ∀ u ∈ ws, u ≠ [] ∧ ∀ c ∈ u, isLowerAlnum c = true) :
    splitWords (joinWith [sep] ws) = ws := by
  rw [splitWords, splitAux_joinWith hsep ws [] none hws, List.nil_append]

/-- String-level idempotence of the snake-case conversion. -/
theorem to_snake_case_idem (s : Str) :
    to_snake_case (to_snake_case s) = to_snake_case s := by
  rw [to_snake_case, to_snake_case,
    splitWords_joinWith (by decide) (splitWords s) (splitWords_inv s)]

/-- String-level idempotence of the kebab-case conversion. -/
theorem to_kebab_case_idem (s : Str) :
    to_kebab_case (to_kebab_case s) = to_kebab_case s := by
  rw [to_kebab_case, to_kebab_case,
    splitWords_joinWith (by decide) (splitWords s) (splitWords_inv s)]

/-- String-level idempotence of the lowercase conversion. -/
theorem to_lowercase_idem (s : Str) :
    to_lowercase (to_lowercase s) = to_lowercase s := by
  rw [to_lowercase, to_lowercase, List.map_map]
  exact List.map_congr_left fun c _ => toLower_toLower c

/-- String-level idempotence of the uppercase conversion. -/
theorem to_uppercase_idem (s : Str) :
    to_uppercase (to_uppercase s) = to_uppercase s := by
  rw [to_uppercase, to_uppercase, List.map_map]
  exact List.map_congr_left fun c _ => toUpper_toUpper c

/-- An input without a single alphanumeric character produces no fragments. -/
theorem splitAux_no_wordChar (s : Str) (h : ∀ c ∈ s, isWordChar c = false) :
    ∀ p, splitAux p [] [] s = [] := by
  induction s with
  | nil => intro p; rfl
  | cons c rest ih =>
    intro p
    rw [splitAux, if_neg (by simp [h c (List.mem_cons_self _ _)]), pushWord_nil]
    exact ih (fun d hd => h d (List.mem_cons_of_mem _ hd)) (some c)

/-- An input without a single alphanumeric character is fixed by the lowercase
and uppercase conversions. -/
theorem to_lowercase_to_uppercase_of_no_wordChar (s : Str)
    (h : ∀ c ∈ s, isWordChar c = false) :
    to_lowercase s = s ∧ to_uppercase s = s := by
  constructor
  · rw [to_lowercase]
    exact (List.map_congr_left fun c hc =>
      toLower_of_not_isLetter (isLetter_of_not_isWordChar (h c hc))).trans (List.map_id s)
  · rw [to_uppercase]
    exact (List.map_congr_left fun c hc =>
      toUpper_of_not_isLetter (isLetter_of_not_isWordChar (h c hc))).trans (List.map_id s)

/-- The contract of `try_get_value!`-guarded filters: the result is a
`TypeMismatch` error exactly on non-string values, and a success carrying a
string-typed value exactly on string values. -/
def FailsExactlyOnNonStrings (f : Value → Args → Except TypeMismatch Value) : Prop :=
  ∀ v args, isError (f v args) = !(isStr v) ∧ isOkStr (f v args) = isStr v

theorem failsExactly_generic (name : Str) (g : Str → Str) :
    FailsExactlyOnNonStrings
      (fun v _ => (tryGetValueString name v).map fun s => Value.str (g s)) := by
  intro v args
  cases v <;> simp [tryGetValueString, isError, isStr, isOkStr, Except.map]

/-! ### Claims -/

/-- C1: every one of the seven filters returns a `TypeMismatch` error if and
only if the input value is not string-typed (numeric and boolean values fail
and are never stringified), and every string-typed input — including the empty
string — yields `Ok` with a string-typed result. -/
theorem filters_typeMismatch_iff_nonstring :
    FailsExactlyOnNonStrings camel_case ∧ FailsExactlyOnNonStrings kebab_case ∧
    FailsExactlyOnNonStrings lower_case ∧ FailsExactlyOnNonStrings mixed_case ∧
    FailsExactlyOnNonStrings snake_case ∧ FailsExactlyOnNonStrings title_case ∧
    FailsExactlyOnNonStrings upper_case :=
  ⟨failsExactly_generic _ _, failsExactly_generic _ _, failsExactly_generic _ _,
    failsExactly_generic _ _, failsExactly_generic _ _, failsExactly_generic _ _,
    failsExactly_generic _ _⟩

/-- C2 (counterexample): `snake_case` applied to `"soMe Text"` does not yield
`"some_text"`: the word splitter opens a new fragment at the lowercase→uppercase
boundary inside `soMe`. -/
theorem snake_case_soMe_Text_ne_some_text :
    snake_case (.str "soMe Text".data) [] ≠ .ok (.str "some_text".data) := by
  decide

/-- C2 (amended): `snake_case` applied to `"soMe Text"` yields `"so_me_text"`. -/
theorem snake_case_soMe_Text_eq_so_me_text :
    snake_case (.str "soMe Text".data) [] = .ok (.str "so_me_text".data) := by
  decide

/-- C3 (counterexample): `title_case` applied to `"soMe Text"` does not yield
`"Some Text"`: the word splitter opens a new fragment at the lowercase→uppercase
boundary inside `soMe`. -/
theorem title_case_soMe_Text_ne_Some_Text :
    title_case (.str "soMe Text".data) [] ≠ .ok (.str "Some Text".data) := by
  decide

/-- C3 (amended): `title_case` applied to `"soMe Text"` yields `"So Me Text"`. -/
theorem title_case_soMe_Text_eq_So_Me_Text :
    title_case (.str "soMe Text".data) [] = .ok (.str "So Me Text".data) := by
  decide

/-- C4: each of the seven filters maps the empty string to the empty string. -/
theorem filters_empty_string (args : Args) :
    camel_case (.str []) args = .ok (.str []) ∧
    kebab_case (.str []) args = .ok (.str []) ∧
    lower_case (.str []) args = .ok (.str []) ∧
    mixed_case (.str []) args = .ok (.str []) ∧
    snake_case (.str []) args = .ok (.str []) ∧
    title_case (.str []) args = .ok (.str []) ∧
    upper_case (.str []) args = .ok (.str []) :=
  ⟨rfl, rfl, rfl, rfl, rfl, rfl, rfl⟩

/-- C5: `lower_case` and `upper_case` are idempotent on their own output —
applying the filter to a string it produced returns that string unchanged. -/
theorem lower_upper_idempotent (s : Str) (args : Args) :
    lower_case (.str (to_lowercase s)) args = .ok (.str (to_lowercase s)) ∧
    upper_case (.str (to_uppercase s)) args = .ok (.str (to_uppercase s)) := by
  constructor
  · show Except.ok (Value.str (to_lowercase (to_lowercase s))) = _
    rw [to_lowercase_idem]
  · show Except.ok (Value.str (to_uppercase (to_uppercase s))) = _
    rw [to_uppercase_idem]

/-- C6: the lowercase and uppercase conversions work character by character on
the raw input: the length is preserved and at each position a letter is re-cased
while every other character (separators, whitespace, punctuation, digits) is
kept unchanged. -/
theorem lower_upper_charwise (s : Str) :
    (to_lowercase s).length = s.length ∧ (to_uppercase s).length = s.length ∧
    ∀ i : Nat,
      (to_lowercase s)[i]? = s[i]?.map (fun c => if isLetter c then c.toLower else c) ∧
      (to_uppercase s)[i]? = s[i]?.map (fun c => if isLetter c then c.toUpper else c) := by
  have hlow : Char.toLower = fun c => if isLetter c then c.toLower else c := by
    funext c
    by_cases h : isLetter c = true
    · rw [if_pos h]
    · rw [if_neg h, toLower_of_not_isLetter (Bool.eq_false_iff.mpr h)]
  have hupp : Char.toUpper = fun c => if isLetter c then c.toUpper else c := by
    funext c
    by_cases h : isLetter c = true
    · rw [if_pos h]
    · rw [if_neg h, toUpper_of_not_isLetter (Bool.eq_false_iff.mpr h)]
  refine ⟨by simp [to_lowercase], by simp [to_uppercase], fun i => ⟨?_, ?_⟩⟩
  · rw [to_lowercase, List.getElem?_map]
    nth_rewrite 1 [hlow]
    rfl
  · rw [to_uppercase, List.getElem?_map]
    nth_rewrite 1 [hupp]
    rfl

/-- C7: on an input with no alphanumeric character, the five word-based filters
yield the empty string while `lower_case` and `upper_case` return the input
unchanged. -/
theorem separator_only_inputs (s : Str) (h : ∀ c ∈ s, isWordChar c = false)
    (args : Args) :
    camel_case (.str s) args = .ok (.str []) ∧
    kebab_case (.str s) args = .ok (.str []) ∧
    mixed_case (.str s) args = .ok (.str []) ∧
    snake_case (.str s) args = .ok (.str []) ∧
    title_case (.str s) args = .ok (.str []) ∧
    lower_case (.str s) args = .ok (.str s) ∧
    upper_case (.str s) args = .ok (.str s) := by
  have hsplit : splitWords s = [] := splitAux_no_wordChar s h none
  have hcase := to_lowercase_to_uppercase_of_no_wordChar s h
  refine ⟨?_, ?_, ?_, ?_, ?_, ?_, ?_⟩
  · show Except.ok (Value.str (to_camel_case s)) = _
    rw [to_camel_case, hsplit]
    rfl
  · show Except.ok (Value.str (to_kebab_case s)) = _
    rw [to_kebab_case, hsplit]
    rfl
  · show Except.ok (Value.str (to_mixed_case s)) = _
    rw [to_mixed_case, hsplit]
  · show Except.ok (Value.str (to_snake_case s)) = _
    rw [to_snake_case, hsplit]
    rfl
  · show Except.ok (Value.str (to_title_case s)) = _
    rw [to_title_case, hsplit]
    rfl
  · show Except.ok (Value.str (to_lowercase s)) = _
    rw [hcase.1]
  · show Except.ok (Value.str (to_uppercase s)) = _
    rw [hcase.2]

/-- C7 (witness): the boundary input `"--__  "` of the spec. -/
theorem separator_only_inputs_witness :
    camel_case (.str "--__  ".data) [] = .ok (.str []) ∧
    kebab_case (.str "--__  ".data) [] = .ok (.str []) ∧
    mixed_case (.str "--__  ".data) [] = .ok (.str []) ∧
    snake_case (.str "--__  ".data) [] = .ok (.str []) ∧
    title_case (.str "--__  ".data) [] = .ok (.str []) ∧
    lower_case (.str "--__  ".data) [] = .ok (.str "--__  ".data) ∧
    upper_case (.str "--__  ".data) [] = .ok (.str "--__  ".data) :=
  separator_only_inputs "--__  ".data (by decide) []

/-- C8: every filter ignores the map of named arguments — results with any two
argument maps coincide, on every input value. -/
theorem filters_ignore_args (v : Value) (m1 m2 : Args) :
    camel_case v m1 = camel_case v m2 ∧ kebab_case v m1 = kebab_case v m2 ∧
    lower_case v m1 = lower_case v m2 ∧ mixed_case v m1 = mixed_case v m2 ∧
    snake_case v m1 = snake_case v m2 ∧ title_case v m1 = title_case v m2 ∧
    upper_case v m1 = upper_case v m2 :=
  ⟨rfl, rfl, rfl, rfl, rfl, rfl, rfl⟩

/-- C9: the kebab-case output consists only of lowercase letters, digits and
hyphens, and the snake-case output only of lowercase letters, digits and
underscores — in particular neither contains an uppercase letter. -/
theorem kebab_snake_output_alphabet (s : Str) :
    ((to_kebab_case s).all fun c => isLowerAlnum c || decide (c = '-')) = true ∧
    ((to_snake_case s).all fun c => isLowerAlnum c || decide (c = '_')) = true := by
  constructor
  · rw [List.all_eq_true]
    intro c hc
    rw [to_kebab_case] at hc
    rcases mem_joinWith hc with h | ⟨w, hw, hcw⟩
    · simp [h]
    · simp [((splitWords_inv s) w hw).2 c hcw]
  · rw [List.all_eq_true]
    intro c hc
    rw [to_snake_case] at hc
    rcases mem_joinWith hc with h | ⟨w, hw, hcw⟩
    · simp [h]
    · simp [((splitWords_inv s) w hw).2 c hcw]

/-- C10: `snake_case` and `kebab_case` are idempotent — applying the filter to
a string it produced returns that string unchanged. -/
theorem snake_kebab_idempotent (s : Str) (args : Args) :
    snake_case (.str (to_snake_case s)) args = .ok (.str (to_snake_case s)) ∧
    kebab_case (.str (to_kebab_case s)) args = .ok (.str (to_kebab_case s)) := by
  constructor
  · show Except.ok (Value.str (to_snake_case (to_snake_case s))) = _
    rw [to_snake_case_idem]
  · show Except.ok (Value.str (to_kebab_case (to_kebab_case s))) = _
    rw [to_kebab_case_idem]

end TeraTextFilters
